import Mathlib

/-!
A shallow embedding of the coffee-machine simulator in `machine.py`
(classes `Ingredient`, `Beverage`, `Machine`) together with proofs about
its observable behaviour: the messages it reports, the mutation of the
shared ingredient quantities, the construction-time error checks, and the
per-attempt lock-acquisition trace of `make_beverage`.

Modelling choices:
- Python `dict`s preserve insertion order and have unique keys, so both the
  ingredient store (`name -> available_quantity`) and a beverage's resolved
  recipe (`ingredient -> required quantity`) are association lists.
- Python integers are unbounded, so quantities are `Int`.
- The random choice of a beverage in `make_beverage` and the scheduling of
  the outlet threads are the only nondeterminism; they are made explicit by
  passing the chosen beverage (resp. the list of choices) as a parameter.
- Printing becomes a returned list of message strings; exceptions become
  `Except`.
-/

namespace CoffeeMachine

/-- The mutable part of the machine: the map from ingredient name to its
`available_quantity`, in insertion order (one `Ingredient` object per name). -/
abbrev Store := List (String × Int)

/-- Dictionary lookup on the ingredient store (first matching key). -/
def lookupQty : Store → String → Option Int
  | [], _ => none
  | (a, b) :: rest, n => if a == n then some b else lookupQty rest n

/-- `Ingredient.getAvailableQuantity` of a name known to be present; the
default `0` is never reached on a well-built machine. -/
def getQty (store : Store) (n : String) : Int :=
  (lookupQty store n).getD 0

/-- `Ingredient.setAvailableQuantity`: overwrite the quantity stored under a
name, leaving every other entry untouched. -/
def setQty : Store → String → Int → Store
  | [], _, _ => []
  | (a, b) :: rest, n, v =>
    if a == n then (a, v) :: setQty rest n v else (a, b) :: setQty rest n v

/-- `ingredient_name in self.ingredients.keys()`. -/
def hasIngredient : Store → String → Bool
  | [], _ => false
  | (a, _) :: rest, n => a == n || hasIngredient rest n

/-- Embeds the `Beverage` class: the resolved recipe (ingredient name and
required quantity, in recipe order) and the names that failed to resolve. -/
structure Beverage where
  name : String
  ingredients : List (String × Int)
  unavailable_ingredients : List String
deriving DecidableEq, Repr

/-- `Beverage.__init__`: walk the recipe in order, resolving each ingredient
name against the store's names; unresolved names are collected in order. -/
def Beverage.build (name : String) (recipe : List (String × Int))
    (availNames : List String) : Beverage :=
  ⟨name,
   recipe.filter (fun p => availNames.contains p.1),
   (recipe.filter (fun p => !(availNames.contains p.1))).map Prod.fst⟩

/-- `Beverage.isAvailable`: `len(self.unavailable_ingredients) == 0`. -/
def Beverage.isAvailable (b : Beverage) : Bool :=
  b.unavailable_ingredients.length == 0

/-- The two construction-time exceptions of `Machine.__init__`. -/
inductive MachineError where
  | invalidNumOutlets
  | noBeverage
deriving DecidableEq, Repr

/-- The JSON configuration consumed by `Machine.__init__`. -/
structure Config where
  outlets : Int
  total_items_quantity : List (String × Int)
  beverages : List (String × List (String × Int))
deriving DecidableEq, Repr

/-- Embeds the `Machine` class after construction. -/
structure Machine where
  num_outlets : Int
  ingredients : Store
  beverages : List Beverage
deriving DecidableEq, Repr

/-- `Machine.__init__`: reject `num_outlets <= 0` first, then build the
ingredient store and the beverage catalog, then reject an empty catalog. -/
def Machine.build (data : Config) : Except MachineError Machine :=
  if data.outlets ≤ 0 then Except.error MachineError.invalidNumOutlets
  else if (data.beverages.map (fun p =>
      Beverage.build p.1 p.2 (data.total_items_quantity.map Prod.fst))).length == 0 then
    Except.error MachineError.noBeverage
  else Except.ok ⟨data.outlets, data.total_items_quantity,
    data.beverages.map (fun p =>
      Beverage.build p.1 p.2 (data.total_items_quantity.map Prod.fst))⟩

/-- The "not available" message of `make_beverage` (machine.py line 184). -/
def notAvailableMsg (b : Beverage) : String :=
  b.name ++ " cannot be prepared because "
    ++ String.intercalate ", " b.unavailable_ingredients ++ " not available"

/-- The insufficiency message of `make_beverage` (machine.py line 198); the
source spells the last word "sufficiennt". -/
def notSufficientMsg (bev ing : String) : String :=
  bev ++ " cannot be prepared as " ++ ing ++ " is not sufficiennt"

/-- The success message of `make_beverage` (machine.py line 203). -/
def preparedMsg (bev : String) : String :=
  bev ++ " has been prepared"

/-- The ingredient loop of `make_beverage`: for each required ingredient in
order, under its lock compare `available_qty` with `required_qty`; decrement
on success, otherwise stop and report the offending ingredient name. -/
def consume : Store → List (String × Int) → Store × Option String
  | store, [] => (store, none)
  | store, (ing, req) :: rest =>
    if req ≤ getQty store ing then
      consume (setQty store ing (getQty store ing - req)) rest
    else (store, some ing)

/-- `Machine.make_beverage` for a given chosen beverage: returns the new
store and the single message printed by the attempt. -/
def make_beverage (store : Store) (bev : Beverage) : Store × List String :=
  if bev.isAvailable then
    match consume store bev.ingredients with
    | (store2, none) => (store2, [preparedMsg bev.name])
    | (store2, some ing) => (store2, [notSufficientMsg bev.name ing])
  else
    (store, [notAvailableMsg bev])

/-- One attempt per chosen beverage, threading the shared store; the output
lines of `Machine.run` in one attempt-serialized interleaving. -/
def runAttempts : Store → List Beverage → Store × List String
  | store, [] => (store, [])
  | store, b :: rest =>
    ((runAttempts (make_beverage store b).1 rest).1,
     (make_beverage store b).2 ++ (runAttempts (make_beverage store b).1 rest).2)

/-- `Machine.run`: spawn one `make_beverage` attempt per outlet; `choices`
lists the beverage picked by each attempt. -/
def Machine.run (m : Machine) (choices : List Beverage) : Store × List String :=
  runAttempts m.ingredients choices

/-- `Machine.refill`: unknown names report and change nothing; known names
have their quantity overwritten with `new_quantity`. -/
def refill (store : Store) (ingredient_name : String) (new_quantity : Int) :
    Store × String :=
  if hasIngredient store ingredient_name then
    (setQty store ingredient_name new_quantity,
     "Updated " ++ ingredient_name ++ "\x27s available quantity to "
       ++ toString new_quantity)
  else
    (store, ingredient_name ++ " cannot be refilled as it is not available")

/-- `Machine.getIngredientAvailability`: the quantity if the name is known,
otherwise `none` (the code prints an error and returns `None`). -/
def getIngredientAvailability (store : Store) (ingredient_name : String) :
    Option Int :=
  lookupQty store ingredient_name

/-- The loop condition of `make_beverage` holds at every step: each required
ingredient, checked in order against the evolving store, is sufficient. -/
def sufficientAll : Store → List (String × Int) → Bool
  | _, [] => true
  | store, (ing, req) :: rest =>
    decide (req ≤ getQty store ing)
      && sufficientAll (setQty store ing (getQty store ing - req)) rest

end CoffeeMachine

namespace CoffeeMachine

theorem lookupQty_setQty_self (store : Store) (n : String) (v : Int) :
    lookupQty (setQty store n v) n = (lookupQty store n).map (fun _ => v) := by
  induction store with
  | nil => rfl
  | cons p rest ih =>
    obtain ⟨a, b⟩ := p
    by_cases h : a = n
    · subst h
      simp [setQty, lookupQty]
    · simp [setQty, lookupQty, h, ih]

theorem lookupQty_setQty_ne (store : Store) {m n : String} (v : Int) (hmn : m ≠ n) :
    lookupQty (setQty store n v) m = lookupQty store m := by
  induction store with
  | nil => rfl
  | cons p rest ih =>
    obtain ⟨a, b⟩ := p
    by_cases h : a = n
    · subst h
      simp [setQty, lookupQty, Ne.symm hmn, ih]
    · by_cases h2 : a = m
      · subst h2
        simp [setQty, lookupQty, h]
      · simp [setQty, lookupQty, h, h2, ih]

theorem hasIngredient_iff_isSome (store : Store) (n : String) :
    hasIngredient store n = true ↔ (lookupQty store n).isSome = true := by
  induction store with
  | nil => simp [hasIngredient, lookupQty]
  | cons p rest ih =>
    obtain ⟨a, b⟩ := p
    by_cases h : a = n
    · subst h
      simp [hasIngredient, lookupQty]
    · simp [hasIngredient, lookupQty, h, ih]

theorem setQty_nonneg {store : Store} {n : String} {v : Int}
    (h : ∀ p ∈ store, 0 ≤ p.2) (hv : 0 ≤ v) :
    ∀ p ∈ setQty store n v, 0 ≤ p.2 := by
  induction store with
  | nil => simp [setQty]
  | cons q rest ih =>
    obtain ⟨a, b⟩ := q
    have hrest := ih (fun r hr => h r (List.mem_cons_of_mem _ hr))
    intro p hp
    by_cases hab : a = n
    · subst hab
      simp [setQty] at hp
      rcases hp with rfl | hp
      · exact hv
      · exact hrest p hp
    · simp [setQty, hab] at hp
      rcases hp with rfl | hp
      · exact h (a, b) (List.mem_cons_self _ _)
      · exact hrest p hp

end CoffeeMachine

namespace CoffeeMachine

theorem consume_lookup_not_mem (reqs : List (String × Int)) :
    ∀ (store : Store) (n : String), (∀ p ∈ reqs, p.1 ≠ n) →
      lookupQty (consume store reqs).1 n = lookupQty store n := by
  induction reqs with
  | nil => intro store n _; rfl
  | cons q rest ih =>
    obtain ⟨ing, req⟩ := q
    intro store n h
    by_cases hle : req ≤ getQty store ing
    · simp only [consume, if_pos hle]
      rw [ih _ n (fun p hp => h p (List.mem_cons_of_mem _ hp))]
      exact lookupQty_setQty_ne store _ (Ne.symm (h (ing, req) (List.mem_cons_self _ _)))
    · simp only [consume, if_neg hle]

theorem consume_snd_of_sufficientAll (reqs : List (String × Int)) :
    ∀ store : Store, sufficientAll store reqs = true → (consume store reqs).2 = none := by
  induction reqs with
  | nil => intro store _; rfl
  | cons q rest ih =>
    obtain ⟨ing, req⟩ := q
    intro store hs
    simp only [sufficientAll, Bool.and_eq_true, decide_eq_true_eq] at hs
    simp only [consume, if_pos hs.1]
    exact ih _ hs.2

theorem consume_append_of_sufficientAll (pre : List (String × Int)) :
    ∀ (store : Store) (rest : List (String × Int)), sufficientAll store pre = true →
      consume store (pre ++ rest) = consume (consume store pre).1 rest := by
  induction pre with
  | nil => intro store rest _; rfl
  | cons q pre ih =>
    obtain ⟨ing, req⟩ := q
    intro store rest hs
    simp only [sufficientAll, Bool.and_eq_true, decide_eq_true_eq] at hs
    simp only [List.cons_append, consume, if_pos hs.1]
    exact ih _ rest hs.2

theorem consume_lookup_mem (reqs : List (String × Int)) :
    ∀ store : Store, (reqs.map Prod.fst).Nodup → sufficientAll store reqs = true →
      ∀ p ∈ reqs, lookupQty (consume store reqs).1 p.1
        = (lookupQty store p.1).map (fun v => v - p.2) := by
  induction reqs with
  | nil => intro store _ _ p hp; cases hp
  | cons q rest ih =>
    obtain ⟨ing, req⟩ := q
    intro store hnd hs p hp
    simp only [List.map_cons, List.nodup_cons] at hnd
    simp only [sufficientAll, Bool.and_eq_true, decide_eq_true_eq] at hs
    have hcons : consume store ((ing, req) :: rest)
        = consume (setQty store ing (getQty store ing - req)) rest := by
      simp only [consume, if_pos hs.1]
    rcases List.mem_cons.mp hp with rfl | hp
    · have hni : ∀ q ∈ rest, q.1 ≠ ing := by
        intro q hq e
        exact hnd.1 (e ▸ List.mem_map_of_mem Prod.fst hq)
      rw [hcons, consume_lookup_not_mem rest _ ing hni, lookupQty_setQty_self]
      cases hl : lookupQty store ing with
      | none => simp
      | some v => simp [getQty, hl]
    · have hpne : p.1 ≠ ing := fun e => hnd.1 (e ▸ List.mem_map_of_mem Prod.fst hp)
      rw [hcons, ih _ hnd.2 hs.2 p hp, lookupQty_setQty_ne store _ hpne]

theorem consume_nonneg (reqs : List (String × Int)) :
    ∀ store : Store, (∀ p ∈ store, 0 ≤ p.2) →
      ∀ p ∈ (consume store reqs).1, 0 ≤ p.2 := by
  induction reqs with
  | nil => intro store h p hp; exact h p hp
  | cons q rest ih =>
    obtain ⟨ing, req⟩ := q
    intro store h
    by_cases hle : req ≤ getQty store ing
    · simp only [consume, if_pos hle]
      exact ih _ (setQty_nonneg h (sub_nonneg.mpr hle))
    · simp only [consume, if_neg hle]
      exact h

theorem make_beverage_fst (store : Store) (bev : Beverage) :
    (make_beverage store bev).1
      = if bev.isAvailable then (consume store bev.ingredients).1 else store := by
  rcases hc : consume store bev.ingredients with ⟨s2, o⟩
  by_cases h : bev.isAvailable <;> cases o <;> simp [make_beverage, h, hc]

theorem make_beverage_snd_length (store : Store) (bev : Beverage) :
    ((make_beverage store bev).2).length = 1 := by
  rcases hc : consume store bev.ingredients with ⟨s2, o⟩
  by_cases h : bev.isAvailable <;> cases o <;> simp [make_beverage, h, hc]

theorem isAvailable_iff (b : Beverage) :
    b.isAvailable = true ↔ b.unavailable_ingredients = [] := by
  simp [Beverage.isAvailable, List.length_eq_zero]

end CoffeeMachine

namespace CoffeeMachine

/-- The observable locking events of one preparation attempt: acquiring or
releasing an ingredient's lock, and reading or writing its quantity. -/
inductive Event where
  | acquire (i : String)
  | readQty (i : String)
  | writeQty (i : String)
  | release (i : String)
deriving DecidableEq, Repr

/-- The lock/access trace of the ingredient loop of `make_beverage`: each
`with ingredient.getLock()` block reads the quantity and either writes the
decremented value and leaves the block, or leaves the block and aborts the
loop (machine.py lines 188-199). -/
def consumeTrace : Store → List (String × Int) → List Event
  | _, [] => []
  | store, (ing, req) :: rest =>
    if req ≤ getQty store ing then
      Event.acquire ing :: Event.readQty ing :: Event.writeQty ing :: Event.release ing
        :: consumeTrace (setQty store ing (getQty store ing - req)) rest
    else
      [Event.acquire ing, Event.readQty ing, Event.release ing]

/-- The lock/access trace of a whole `make_beverage` attempt: an unavailable
beverage touches no lock. -/
def makeTrace (store : Store) (bev : Beverage) : List Event :=
  if bev.isAvailable then consumeTrace store bev.ingredients else []

/-- Lock-discipline automaton; `held` is the lock currently held (at most
one, by the shape of the state). A trace is accepted when a lock is acquired
only while none is held, quantities are read and written only under that
same ingredient's lock, and every acquired lock is released. -/
def wellLocked : Option String → List Event → Bool
  | none, [] => true
  | none, Event.acquire i :: es => wellLocked (some i) es
  | none, _ :: _ => false
  | some _, [] => false
  | some i, Event.readQty j :: es => j == i && wellLocked (some i) es
  | some i, Event.writeQty j :: es => j == i && wellLocked (some i) es
  | some i, Event.release j :: es => j == i && wellLocked none es
  | some _, Event.acquire _ :: _ => false

/-- A trace is a sequence of single-lock critical sections: each acquires one
ingredient's lock, reads that ingredient's quantity, then either writes the
decremented quantity and releases, or (as the final section) releases
without writing. The check and the decrement lie in one acquisition. -/
def criticalBlocks : List Event → Bool
  | [] => true
  | Event.acquire i :: Event.readQty j :: Event.writeQty k :: Event.release l :: rest =>
    i == j && (i == k && (i == l && criticalBlocks rest))
  | [Event.acquire i, Event.readQty j, Event.release k] => i == j && i == k
  | _ => false

/-- +1 for an acquisition, -1 for a release, 0 otherwise. -/
def lockDelta : Event → Int
  | Event.acquire _ => 1
  | Event.release _ => -1
  | _ => 0

/-- Number of locks held after a sequence of events. -/
def heldAfter (es : List Event) : Int :=
  (es.map lockDelta).sum

/-- Number of locks encoded by an automaton state. -/
def heldInit : Option String → Int
  | none => 0
  | some _ => 1

/-- The store-touching operations callable on a constructed machine: a
preparation attempt with its chosen beverage, a `refill`, and the
`getIngredientAvailability` query (which never mutates). -/
inductive MachineOp where
  | prepare (bev : Beverage)
  | refillQty (name : String) (q : Int)
  | query (name : String)
deriving DecidableEq, Repr

/-- Effect of one operation on the ingredient store. -/
def applyOp (store : Store) : MachineOp → Store
  | MachineOp.prepare bev => (make_beverage store bev).1
  | MachineOp.refillQty n q => (refill store n q).1
  | MachineOp.query _ => store

/-- Effect of a sequence of operations on the ingredient store. -/
def applyOps (store : Store) (ops : List MachineOp) : Store :=
  ops.foldl applyOp store

/-- Refill operations carry a non-negative quantity; preparation attempts
and queries are unrestricted. -/
def refillNonneg : MachineOp → Bool
  | MachineOp.refillQty _ q => decide (0 ≤ q)
  | _ => true

theorem refill_fst (store : Store) (n : String) (q : Int) :
    (refill store n q).1
      = if hasIngredient store n then setQty store n q else store := by
  by_cases h : hasIngredient store n <;> simp [refill, h]

theorem make_beverage_nonneg {store : Store} (bev : Beverage)
    (h : ∀ p ∈ store, 0 ≤ p.2) :
    ∀ p ∈ (make_beverage store bev).1, 0 ≤ p.2 := by
  rw [make_beverage_fst]
  by_cases hav : bev.isAvailable
  · simpa [hav] using consume_nonneg bev.ingredients store h
  · simpa [hav] using h

theorem applyOps_nonneg (ops : List MachineOp) :
    ∀ store : Store, (∀ p ∈ store, 0 ≤ p.2) →
      (∀ op ∈ ops, refillNonneg op = true) →
      ∀ p ∈ applyOps store ops, 0 ≤ p.2 := by
  induction ops with
  | nil => intro store h _; exact h
  | cons op rest ih =>
    intro store h hops
    have hrest := fun o ho => hops o (List.mem_cons_of_mem _ ho)
    have hstep : ∀ p ∈ applyOp store op, 0 ≤ p.2 := by
      cases op with
      | prepare bev => exact make_beverage_nonneg bev h
      | refillQty n q =>
        have hq : (0 : Int) ≤ q := by
          simpa [refillNonneg] using hops _ (List.mem_cons_self _ _)
        intro p hp
        rw [applyOp, refill_fst] at hp
        by_cases hn : hasIngredient store n
        · rw [if_pos hn] at hp
          exact setQty_nonneg h hq p hp
        · rw [if_neg hn] at hp
          exact h p hp
      | query n => exact h
    simpa [applyOps] using ih (applyOp store op) hstep hrest

end CoffeeMachine

namespace CoffeeMachine

theorem consumeTrace_wellLocked (reqs : List (String × Int)) :
    ∀ store : Store, wellLocked none (consumeTrace store reqs) = true := by
  induction reqs with
  | nil => intro store; rfl
  | cons q rest ih =>
    obtain ⟨ing, req⟩ := q
    intro store
    by_cases hle : req ≤ getQty store ing
    · simp only [consumeTrace, if_pos hle]
      simpa [wellLocked] using ih _
    · simp [consumeTrace, if_neg hle, wellLocked]

theorem consumeTrace_criticalBlocks (reqs : List (String × Int)) :
    ∀ store : Store, criticalBlocks (consumeTrace store reqs) = true := by
  induction reqs with
  | nil => intro store; rfl
  | cons q rest ih =>
    obtain ⟨ing, req⟩ := q
    intro store
    by_cases hle : req ≤ getQty store ing
    · simp only [consumeTrace, if_pos hle]
      simpa [criticalBlocks] using ih _
    · simp [consumeTrace, if_neg hle, criticalBlocks]

theorem wellLocked_take_bound (es : List Event) :
    ∀ (held : Option String) (n : Nat), wellLocked held es = true →
      0 ≤ heldInit held + heldAfter (es.take n)
        ∧ heldInit held + heldAfter (es.take n) ≤ 1 := by
  induction es with
  | nil =>
    intro held n hw
    cases held with
    | none => simp [heldInit, heldAfter]
    | some i => simp [wellLocked] at hw
  | cons e es ih =>
    intro held n hw
    cases n with
    | zero =>
      cases held with
      | none => simp [heldInit, heldAfter]
      | some i => simp [heldInit, heldAfter]
    | succ n =>
      cases held with
      | none =>
        cases e with
        | acquire i =>
          have hw' : wellLocked (some i) es = true := by simpa [wellLocked] using hw
          have hb := ih (some i) n hw'
          simp only [List.take_succ_cons, heldAfter, List.map_cons, List.sum_cons,
            lockDelta, heldInit] at hb ⊢
          omega
        | readQty i => simp [wellLocked] at hw
        | writeQty i => simp [wellLocked] at hw
        | release i => simp [wellLocked] at hw
      | some i =>
        cases e with
        | acquire j => simp [wellLocked] at hw
        | readQty j =>
          have hw' : wellLocked (some i) es = true := by
            simp [wellLocked] at hw
            exact hw.2
          have hb := ih (some i) n hw'
          simp only [List.take_succ_cons, heldAfter, List.map_cons, List.sum_cons,
            lockDelta, heldInit] at hb ⊢
          omega
        | writeQty j =>
          have hw' : wellLocked (some i) es = true := by
            simp [wellLocked] at hw
            exact hw.2
          have hb := ih (some i) n hw'
          simp only [List.take_succ_cons, heldAfter, List.map_cons, List.sum_cons,
            lockDelta, heldInit] at hb ⊢
          omega
        | release j =>
          have hw' : wellLocked none es = true := by
            simp [wellLocked] at hw
            exact hw.2
          have hb := ih none n hw'
          simp only [List.take_succ_cons, heldAfter, List.map_cons, List.sum_cons,
            lockDelta, heldInit] at hb ⊢
          omega

/-- Claim C9: the lock/access trace of any `make_beverage` attempt obeys the
single-guard discipline: the trace is accepted by the automaton that allows
an acquisition only when no lock is held, allows reading or writing an
ingredient's quantity only under that very ingredient's lock, and requires
every acquired lock to be released; the trace decomposes into critical
sections in which the quantity check and the decrement happen under one and
the same acquisition; and after every prefix of the trace the number of held
locks is at most one (and never negative). Mutual exclusion of the lock then
gives that no other attempt can observe or mutate the ingredient's quantity
between its check and its decrement. -/
theorem make_beverage_locking (store : Store) (bev : Beverage) :
    wellLocked none (makeTrace store bev) = true
      ∧ criticalBlocks (makeTrace store bev) = true
      ∧ ∀ n : Nat, 0 ≤ heldAfter ((makeTrace store bev).take n)
          ∧ heldAfter ((makeTrace store bev).take n) ≤ 1 := by
  have hw : wellLocked none (makeTrace store bev) = true := by
    rw [makeTrace]
    by_cases h : bev.isAvailable
    · simpa [h] using consumeTrace_wellLocked bev.ingredients store
    · simp [h, wellLocked]
  refine ⟨hw, ?_, ?_⟩
  · rw [makeTrace]
    by_cases h : bev.isAvailable
    · simpa [h] using consumeTrace_criticalBlocks bev.ingredients store
    · simp [h, criticalBlocks]
  · intro n
    have hb := wellLocked_take_bound (makeTrace store bev) none n hw
    simpa [heldInit] using hb

end CoffeeMachine

namespace CoffeeMachine

/-- Witness fixture: the ingredient store of the spec's concrete scenario. -/
def wStore : Store := [("hot_water", 100), ("hot_milk", 50)]

/-- Witness fixture: the beverage `tea` of the spec's concrete scenario,
built against a store that resolves both of its ingredients. -/
def wBev : Beverage :=
  Beverage.build "tea" [("hot_water", 50), ("hot_milk", 50)] ["hot_water", "hot_milk"]

/-- Claim C1: for an available beverage (empty `unavailable_ingredients`)
each of whose required ingredients, in the beverage's fixed construction
order, has `availableQuantity` at least the required quantity at the time it
is checked, `make_beverage` reports exactly the line
"<beverage name> has been prepared" and decrements each required
ingredient's quantity by exactly its required quantity. -/
theorem make_beverage_success (store : Store) (bev : Beverage)
    (hav : bev.unavailable_ingredients = [])
    (hnd : (bev.ingredients.map Prod.fst).Nodup)
    (hsuf : sufficientAll store bev.ingredients = true) :
    (make_beverage store bev).2 = [bev.name ++ " has been prepared"]
      ∧ ∀ p ∈ bev.ingredients,
          lookupQty (make_beverage store bev).1 p.1
            = (lookupQty store p.1).map (fun v => v - p.2) := by
  have hA : bev.isAvailable = true := (isAvailable_iff bev).mpr hav
  have hnone := consume_snd_of_sufficientAll bev.ingredients store hsuf
  constructor
  · rcases hc : consume store bev.ingredients with ⟨s2, o⟩
    rw [hc] at hnone
    simp only at hnone
    subst hnone
    simp [make_beverage, hA, hc, preparedMsg]
  · rw [make_beverage_fst, if_pos hA]
    exact consume_lookup_mem bev.ingredients store hnd hsuf

/-- Witness for C1 at the spec's concrete scenario. -/
theorem make_beverage_success_witness :
    (make_beverage wStore wBev).2 = ["tea has been prepared"]
      ∧ ∀ p ∈ wBev.ingredients,
          lookupQty (make_beverage wStore wBev).1 p.1
            = (lookupQty wStore p.1).map (fun v => v - p.2) :=
  make_beverage_success wStore wBev (by decide) (by decide) (by decide)

/-- Claim C2 (code bug): at a concrete insufficient ingredient the attempt
reports the line with the source's misspelling "is not sufficiennt"
(machine.py line 198), which is not the wording "is not sufficient" that the
specification fixes as the observable contract. -/
theorem notSufficient_line_misspelled :
    make_beverage [("hot_milk", 10)]
        (Beverage.build "tea" [("hot_milk", 50)] ["hot_milk"])
      = ([("hot_milk", 10)],
         ["tea cannot be prepared as hot_milk is not sufficiennt"])
    ∧ ("tea cannot be prepared as hot_milk is not sufficiennt"
        ≠ "tea cannot be prepared as hot_milk is not sufficient") :=
  ⟨by decide, by decide⟩

/-- Claim C3 (counterexample): `refill` overwrites without validating, so a
negative refill quantity drives an ingredient's `availableQuantity` below
zero, violating the unconditional non-negativity claim. -/
theorem refill_negative_quantity :
    lookupQty (refill [("water", 5)] "water" (-1)).1 "water" = some (-1)
      ∧ ((-1 : Int) < 0) :=
  ⟨by decide, by decide⟩

/-- Claim C3 (amended): on a machine constructed from a configuration whose
initial quantities are non-negative, every ingredient's `availableQuantity`
stays non-negative after any sequence of preparation attempts, availability
queries, and refills whose new quantities are non-negative; preparation
attempts can never drive a quantity negative because the decrement only
happens when the checked quantity is at least the required one. -/
theorem quantities_nonneg (cfg : Config) (m : Machine)
    (hm : Machine.build cfg = Except.ok m)
    (hq : ∀ p ∈ cfg.total_items_quantity, 0 ≤ p.2)
    (ops : List MachineOp)
    (hops : ∀ op ∈ ops, refillNonneg op = true) :
    ∀ p ∈ applyOps m.ingredients ops, 0 ≤ p.2 := by
  have hing : m.ingredients = cfg.total_items_quantity := by
    unfold Machine.build at hm
    split at hm
    · cases hm
    · split at hm
      · cases hm
      · cases hm
        rfl
  rw [hing]
  exact applyOps_nonneg ops _ hq hops

/-- Witness fixture: the configuration of the spec's concrete scenario. -/
def wConfig : Config :=
  ⟨1, [("hot_water", 100), ("hot_milk", 50)],
   [("tea", [("hot_water", 50), ("hot_milk", 50)])]⟩

/-- Witness fixture: the machine `Machine.build` constructs from `wConfig`. -/
def wMachine : Machine :=
  ⟨1, [("hot_water", 100), ("hot_milk", 50)], [wBev]⟩

/-- Witness for the amended C3: after a prepare, a non-negative refill, and
a query, the `hot_water` entry of the store is non-negative. -/
theorem quantities_nonneg_witness :
    ("hot_water", (50 : Int)) ∈ applyOps wMachine.ingredients
        [MachineOp.prepare wBev, MachineOp.refillQty "hot_milk" 500,
         MachineOp.query "hot_water"]
      ∧ 0 ≤ (50 : Int) :=
  ⟨by decide,
   quantities_nonneg wConfig wMachine rfl (by decide)
     [MachineOp.prepare wBev, MachineOp.refillQty "hot_milk" 500,
      MachineOp.query "hot_water"]
     (by decide) ("hot_water", 50) (by decide)⟩

/-- Claim C4 (counterexample): a configuration with an empty beverage
mapping AND a non-positive outlet count fails with the outlet-count error,
not the no-beverage error: the empty-catalog failure is not independent of
the outlet-count field. -/
theorem build_empty_catalog_not_independent :
    Machine.build ⟨0, [], []⟩ = Except.error MachineError.invalidNumOutlets
      ∧ (Except.error MachineError.invalidNumOutlets
          ≠ (Except.error MachineError.noBeverage : Except MachineError Machine)) := by
  refine ⟨rfl, ?_⟩
  intro h
  injection h with h2
  cases h2

/-- Claim C4 (amended): for every configuration, a non-positive outlet count
fails with the outlet-count error regardless of all other fields; an empty
beverage mapping fails with the no-beverage error regardless of the other
fields provided the outlet count is positive (the outlet-count check runs
first); and the two error kinds are distinct. -/
theorem build_errors (cfg : Config) :
    (cfg.outlets ≤ 0 →
        Machine.build cfg = Except.error MachineError.invalidNumOutlets)
      ∧ (0 < cfg.outlets → cfg.beverages = [] →
          Machine.build cfg = Except.error MachineError.noBeverage)
      ∧ MachineError.invalidNumOutlets ≠ MachineError.noBeverage := by
  refine ⟨?_, ?_, by decide⟩
  · intro h
    simp [Machine.build, h]
  · intro h hb
    have h' : ¬ cfg.outlets ≤ 0 := not_le.mpr h
    simp [Machine.build, h', hb]

/-- Witness for the amended C4 at concrete configurations. -/
theorem build_errors_witness :
    Machine.build ⟨0, [("a", 1)], [("tea", [("a", 1)])]⟩
        = Except.error MachineError.invalidNumOutlets
      ∧ Machine.build ⟨2, [("a", 1)], []⟩ = Except.error MachineError.noBeverage :=
  ⟨(build_errors _).1 (by decide), (build_errors _).2.1 (by decide) rfl⟩

end CoffeeMachine

namespace CoffeeMachine

/-- Claim C5: a beverage whose recipe references at least one ingredient
name absent from the store's names at catalog-build time is reported with
the line "<name> cannot be prepared because <comma-joined unresolved names,
in recipe order> not available"; the store is unchanged (no decrement) and
the attempt produces no lock event at all. -/
theorem make_beverage_unavailable (store : Store) (nm : String)
    (recipe : List (String × Int)) (names : List String)
    (h : ∃ p ∈ recipe, names.contains p.1 = false) :
    make_beverage store (Beverage.build nm recipe names)
        = (store,
           [nm ++ " cannot be prepared because "
             ++ String.intercalate ", "
                 ((recipe.filter (fun p => !(names.contains p.1))).map Prod.fst)
             ++ " not available"])
      ∧ makeTrace store (Beverage.build nm recipe names) = [] := by
  obtain ⟨p, hp, hmem⟩ := h
  have hpred : (!(names.contains p.1)) = true := by
    rw [hmem]
    rfl
  have hmem2 : p.1 ∈ (Beverage.build nm recipe names).unavailable_ingredients :=
    List.mem_map_of_mem Prod.fst (List.mem_filter.mpr ⟨hp, hpred⟩)
  have hne : (Beverage.build nm recipe names).unavailable_ingredients ≠ [] := by
    intro he
    rw [he] at hmem2
    cases hmem2
  have hAv : (Beverage.build nm recipe names).isAvailable = false := by
    rcases Bool.eq_false_or_eq_true (Beverage.build nm recipe names).isAvailable
      with hb | hb
    · exact absurd ((isAvailable_iff _).mp hb) hne
    · exact hb
  have hmk : make_beverage store (Beverage.build nm recipe names)
      = (store, [notAvailableMsg (Beverage.build nm recipe names)]) := by
    simp [make_beverage, hAv]
  refine ⟨?_, ?_⟩
  · exact hmk
  · simp [makeTrace, hAv]

/-- Witness for C5: `green_tea` requires `green_mix`, which the store does
not define. -/
theorem make_beverage_unavailable_witness :
    make_beverage [("hot_milk", 10)]
        (Beverage.build "green_tea" [("hot_milk", 10), ("green_mix", 5)] ["hot_milk"])
        = ([("hot_milk", 10)],
           ["green_tea cannot be prepared because green_mix not available"])
      ∧ makeTrace [("hot_milk", 10)]
          (Beverage.build "green_tea" [("hot_milk", 10), ("green_mix", 5)] ["hot_milk"])
        = [] :=
  make_beverage_unavailable [("hot_milk", 10)] "green_tea"
    [("hot_milk", 10), ("green_mix", 5)] ["hot_milk"] (by decide)

/-- Claim C6: when the ingredient loop of `make_beverage` aborts at
ingredient `i` because its quantity is insufficient, the ingredients checked
before `i` keep their decrement (no rollback), while `i` itself and every
ingredient after it in the recipe are unchanged by the attempt; the attempt
reports the insufficiency line for `i`. -/
theorem make_beverage_no_rollback (store : Store) (bev : Beverage)
    (pre post : List (String × Int)) (i : String) (q : Int)
    (hbev : bev.ingredients = pre ++ (i, q) :: post)
    (hav : bev.unavailable_ingredients = [])
    (hnd : ((pre ++ (i, q) :: post).map Prod.fst).Nodup)
    (hpre : sufficientAll store pre = true)
    (hfail : getQty (consume store pre).1 i < q) :
    (make_beverage store bev).2
        = [bev.name ++ " cannot be prepared as " ++ i ++ " is not sufficiennt"]
      ∧ (∀ p ∈ pre, lookupQty (make_beverage store bev).1 p.1
            = (lookupQty store p.1).map (fun v => v - p.2))
      ∧ lookupQty (make_beverage store bev).1 i = lookupQty store i
      ∧ ∀ p ∈ post, lookupQty (make_beverage store bev).1 p.1
          = lookupQty store p.1 := by
  have hA : bev.isAvailable = true := (isAvailable_iff bev).mpr hav
  rw [List.map_append, List.map_cons, List.nodup_append] at hnd
  obtain ⟨hpreNd, hconsNd, hdisj⟩ := hnd
  have hsplit : consume store bev.ingredients = ((consume store pre).1, some i) := by
    rw [hbev, consume_append_of_sufficientAll pre store _ hpre]
    simp only [consume, if_neg (not_le.mpr hfail)]
  have hfst : (make_beverage store bev).1 = (consume store pre).1 := by
    rw [make_beverage_fst, if_pos hA, hsplit]
  refine ⟨?_, ?_, ?_, ?_⟩
  · simp [make_beverage, hA, hsplit, notSufficientMsg]
  · intro p hp
    rw [hfst]
    exact consume_lookup_mem pre store hpreNd hpre p hp
  · rw [hfst]
    refine consume_lookup_not_mem pre store i ?_
    intro p hp e
    have h1 : p.1 ∈ pre.map Prod.fst := List.mem_map_of_mem Prod.fst hp
    rw [e] at h1
    exact hdisj h1 (List.mem_cons_self _ _)
  · intro p hp
    rw [hfst]
    refine consume_lookup_not_mem pre store p.1 ?_
    intro p2 hp2 e
    have h1 : p2.1 ∈ pre.map Prod.fst := List.mem_map_of_mem Prod.fst hp2
    have h2 : p.1 ∈ i :: post.map Prod.fst :=
      List.mem_cons_of_mem _ (List.mem_map_of_mem Prod.fst hp)
    rw [e] at h1
    exact hdisj h1 h2

/-- Witness for C6: `tea` decrements `hot_water` from 100 to 50, then aborts
on `hot_milk` (10 < 50); `hot_water` stays decremented, `hot_milk` intact. -/
theorem make_beverage_no_rollback_witness :
    (make_beverage [("hot_water", 100), ("hot_milk", 10)] wBev).2
        = ["tea cannot be prepared as hot_milk is not sufficiennt"]
      ∧ (∀ p ∈ [(("hot_water" : String), (50 : Int))],
            lookupQty (make_beverage [("hot_water", 100), ("hot_milk", 10)] wBev).1 p.1
              = (lookupQty [("hot_water", 100), ("hot_milk", 10)] p.1).map
                  (fun v => v - p.2))
      ∧ lookupQty (make_beverage [("hot_water", 100), ("hot_milk", 10)] wBev).1
            "hot_milk"
          = lookupQty [("hot_water", 100), ("hot_milk", 10)] "hot_milk"
      ∧ ∀ p ∈ ([] : List (String × Int)),
          lookupQty (make_beverage [("hot_water", 100), ("hot_milk", 10)] wBev).1 p.1
            = lookupQty [("hot_water", 100), ("hot_milk", 10)] p.1 :=
  make_beverage_no_rollback [("hot_water", 100), ("hot_milk", 10)] wBev
    [("hot_water", 50)] [] "hot_milk" 50 (by decide) (by decide) (by decide)
    (by decide) (by decide)

theorem runAttempts_length (choices : List Beverage) :
    ∀ store : Store, ((runAttempts store choices).2).length = choices.length := by
  induction choices with
  | nil => intro store; rfl
  | cons b rest ih =>
    intro store
    simp [runAttempts, make_beverage_snd_length, ih, Nat.add_comm]

/-- Claim C7: every `make_beverage` attempt reports exactly one line
(whichever of the three messages applies), and a run that spawns one attempt
per outlet — `choices` lists the beverage picked by each of the
`outletCount` attempts — reports exactly `outletCount` lines in total. -/
theorem run_line_count :
    (∀ (store : Store) (bev : Beverage), ((make_beverage store bev).2).length = 1)
      ∧ ∀ (m : Machine) (choices : List Beverage),
          (choices.length : Int) = m.num_outlets →
          ((((m.run choices)).2).length : Int) = m.num_outlets := by
  refine ⟨make_beverage_snd_length, ?_⟩
  intro m choices h
  simpa [Machine.run, runAttempts_length] using h

/-- Witness for C7: one outlet, one attempt, one reported line. -/
theorem run_line_count_witness :
    (((wMachine.run [wBev]).2).length : Int) = wMachine.num_outlets :=
  run_line_count.2 wMachine [wBev] (by decide)

/-- Claim C8: refilling a present ingredient overwrites its quantity with
exactly the new value (not additively), so that an immediately following
`getIngredientAvailability` on that name returns the new value, and no other
ingredient's quantity changes. -/
theorem refill_overwrites (store : Store) (n : String) (q : Int)
    (h : hasIngredient store n = true) :
    getIngredientAvailability (refill store n q).1 n = some q
      ∧ ∀ m2 : String, m2 ≠ n →
          lookupQty (refill store n q).1 m2 = lookupQty store m2 := by
  constructor
  · rw [getIngredientAvailability, refill_fst, if_pos h, lookupQty_setQty_self]
    obtain ⟨v, hv⟩ := Option.isSome_iff_exists.mp
      ((hasIngredient_iff_isSome store n).mp h)
    rw [hv]
    rfl
  · intro m2 hm2
    rw [refill_fst, if_pos h]
    exact lookupQty_setQty_ne store q hm2

/-- Witness for C8: refilling `hot_milk` to 500. -/
theorem refill_overwrites_witness :
    getIngredientAvailability (refill wStore "hot_milk" 500).1 "hot_milk" = some 500
      ∧ ∀ m2 : String, m2 ≠ "hot_milk" →
          lookupQty (refill wStore "hot_milk" 500).1 m2 = lookupQty wStore m2 :=
  refill_overwrites wStore "hot_milk" 500 (by decide)

/-- Claim C10: refilling an ingredient name not present in the store is a
non-fatal no-op: the call returns normally with the "cannot be refilled"
message, and the store — hence every ingredient's quantity — is unchanged. -/
theorem refill_unknown (store : Store) (n : String) (q : Int)
    (h : hasIngredient store n = false) :
    refill store n q = (store, n ++ " cannot be refilled as it is not available") := by
  simp [refill, h]

/-- Witness for C10: the store does not define `green_mix`. -/
theorem refill_unknown_witness :
    refill wStore "green_mix" 500
      = (wStore, "green_mix cannot be refilled as it is not available") :=
  refill_unknown wStore "green_mix" 500 (by decide)

end CoffeeMachine
